import Mathlib

/-!
Verification development for `tclx/train/finetune_base.py`, a fine-tuning
driver script.  The script's pure logic (dataset split arithmetic, trainer
dispatch, left-padding of token batches, batching of prompts, data
collation, the `__main__` configuration mutation) is embedded shallowly as
executable Lean definitions; the script's effectful straight-line control
flow is embedded as an explicit event trace parameterised by the
distributed rank and the `trainer` configuration value.
-/

namespace FinetuneBase

/-! ## Dataset split (`train`, lines 61-64) -/

/-- Embeds `eval_size = int(len(data) * 0.02)`.  Python evaluates the
product with IEEE doubles and truncates; the double nearest `0.02` exceeds
`1/50` by about `4.2e-19`, so for every dataset size representable in
practice the truncation equals `⌊n * 2 / 100⌋`, which we take as the
embedding. -/
def evalSize (n : Nat) : Nat := n * 2 / 100

/-- Embeds `datasets.Dataset.select`: pick out the rows at the given
indices, in order; out-of-range indices contribute nothing. -/
def select (data : List α) (idxs : List Nat) : List α :=
  idxs.filterMap fun i => data[i]?

/-- The index list `[i for i in range(eval_size)]` (line 63). -/
def evalIndices (n : Nat) : List Nat := List.range (evalSize n)

/-- The index list `[eval_size + i for i in range(len(data) - eval_size)]`
(line 64). -/
def trainIndices (n : Nat) : List Nat :=
  (List.range (n - evalSize n)).map fun i => evalSize n + i

/-- The eval shard: `data.select([i for i in range(eval_size)])`. -/
def splitEval (data : List α) : List α :=
  select data (evalIndices data.length)

/-- The train shard:
`data.select([eval_size + i for i in range(len(data) - eval_size)])`. -/
def splitTrain (data : List α) : List α :=
  select data (trainIndices data.length)

/-! ## Trainer dispatch (`train`, lines 71-78) -/

/-- The two dataset adapter classes the script can instantiate. -/
inductive Adapter where
  | SFTDataset
  | MaskedSFTDataset
  deriving DecidableEq

/-- Embeds the `if config["trainer"] == "unmasked" ... elif ... else raise
ValueError(...)` dispatch: a recognised value selects an adapter, any
other value raises. -/
def selectAdapter (trainer : String) : Except String Adapter :=
  if trainer = "unmasked" then .ok .SFTDataset
  else if trainer = "masked" then .ok .MaskedSFTDataset
  else .error (trainer ++ " is unsupported train type!")

/-! ## Left padding in `call_model` (lines 24-29) -/

/-- The maximum sequence length in a batch, as `pad_sequence` computes it
(zero for an empty batch). -/
def maxLen (batch : List (List Nat)) : Nat :=
  batch.foldr (fun r m => max r.length m) 0

/-- Embeds `pad_sequence(batch, batch_first=True, padding_value=pad)`:
every row is right-padded with `pad` up to the longest row's length. -/
def padSequence (batch : List (List Nat)) (pad : Nat) : List (List Nat) :=
  batch.map fun r => r ++ List.replicate (maxLen batch - r.length) pad

/-- Embeds the flip-pad-flip idiom of `call_model` (lines 25-29): reverse
each row, right-pad with `pad` to the longest row's length, reverse each
row of the result. -/
def flipPadFlip (batch : List (List Nat)) (pad : Nat) : List (List Nat) :=
  (padSequence (batch.map List.reverse) pad).map List.reverse

/-! ## Batching in `call_model` (lines 14-34)

The tokenizer, the model's `generate` and `batch_decode` are external;
they enter the embedding as function parameters.  `generate` followed by
`batch_decode` is abstracted as `gen`, which the training framework
guarantees returns one decoded string per input row. -/

/-- Embeds `num_batches = (len(prompts) + batch_size - 1) // batch_size`. -/
def numBatches (n bs : Nat) : Nat := (n + bs - 1) / bs

/-- Embeds `prompt_batches = [prompts[i*batch_size:(i+1)*batch_size] for i
in range(num_batches)]` (a Python slice is drop-then-take). -/
def promptBatches (toks : List (List Nat)) (bs : Nat) : List (List (List Nat)) :=
  (List.range (numBatches toks.length bs)).map fun i => (toks.drop (i * bs)).take bs

/-- Embeds `call_model`: tokenize each prompt, cut the token lists into
batches, left-pad each batch, run `gen` (= `generate` + `batch_decode`) on
it, and concatenate the answers with `answers += output`. -/
def call_model (tokenize : String → List Nat) (gen : List (List Nat) → List String)
    (pad : Nat) (prompts : List String) (batch_size : Nat) : List String :=
  let toks := prompts.map fun p => tokenize p
  ((promptBatches toks batch_size).map fun b => gen (flipPadFlip b pad)).flatten

/-! ## `SampleCallback.on_evaluate` (lines 38-49) -/

/-- Embeds the prompt/response table rows built by `on_evaluate`:
`prompts = dataset.prompts[:16]`, `responses = call_model(model, prompts)`
(default `batch_size=16`), rows `[[p, r] for p, r in zip(prompts,
responses)]`. -/
def onEvaluatePairs (tokenize : String → List Nat) (gen : List (List Nat) → List String)
    (pad : Nat) (datasetPrompts : List String) : List (String × String) :=
  let prompts := datasetPrompts.take 16
  let responses := call_model tokenize gen pad prompts 16
  prompts.zip responses

/-! ## The data collator (`train`, lines 86-90) -/

/-- The mapping the collator lambda returns: stacked `input_ids`,
`attention_mask` and `labels` tensors, each modelled as a list of rows. -/
structure CollatedBatch where
  input_ids : List (List Nat)
  attention_mask : List (List Nat)
  labels : List (List Int)
  deriving DecidableEq

/-- Embeds the `data_collator` lambda: stack the first, second and third
component of every example. -/
def data_collator (data : List (List Nat × List Nat × List Int)) : CollatedBatch where
  input_ids := data.map fun f => f.1
  attention_mask := data.map fun f => f.2.1
  labels := data.map fun f => f.2.2

/-! ## Configuration handling (`__main__`, lines 96-107) -/

/-- Embeds Python `dict` key assignment `d[k] = v` on an association list
with distinct keys: overwrite the value in place if the key is present,
otherwise append the pair. -/
def dictSet : List (String × String) → String → String → List (String × String)
  | [], k, v => [(k, v)]
  | p :: rest, k, v => if p.1 = k then (k, v) :: rest else p :: dictSet rest k v

/-- Embeds Python `dict` lookup `d.get(k)` on an association list. -/
def dictGet (d : List (String × String)) (k : String) : Option String :=
  (d.find? fun p => p.1 = k).map fun p => p.2

/-- Embeds what `__main__` does to `config["train_args"]` before `train`
constructs `TrainingArguments(**config["train_args"])`: line 105 sets
`config["train_args"]["deepspeed"] = args.ds_config_path` (`train` itself
updates only the top level of `config`, line 53, not `train_args`). -/
def mainTrainArgs (yamlTrainArgs : List (String × String)) (dsConfigPath : String) :
    List (String × String) :=
  dictSet yamlTrainArgs "deepspeed" dsConfigPath

/-! ## Concrete inputs used by the witness theorems -/

/-- A concrete two-example batch of row length 1, used to witness
`data_collator_stacks`. -/
def exampleBatch : List (List Nat × List Nat × List Int) :=
  [([1], [1], [0]), ([2], [0], [-1])]

/-- A concrete stand-in for the external tokenizer. -/
def tok0 : String → List Nat := fun s => [s.length]

/-- A concrete stand-in for `generate` + `batch_decode` that returns one
decoded string per input row, as the framework guarantees. -/
def gen0 : List (List Nat) → List String := fun b => b.map fun _ => "r"

/-- A concrete prompt list used to witness `call_model_batches`. -/
def prompts0 : List String := ["a", "bb", "ccc"]

/-- A concrete eval-dataset prompt list used to witness
`on_evaluate_sampling`. -/
def dsPrompts0 : List String := ["a", "bb"]

/-! ## The effectful control flow of `train` as an event trace -/

/-- The observable effects of `train` (lines 52-93) and of
`SampleCallback.on_evaluate` (lines 38-49), in source order. -/
inductive Event where
  | updateConfig
  | loadTokenizer
  | setPadToken
  | buildTrainingArgs
  | loadModel
  | loadDataset
  | selectEvalShard
  | selectTrainShard
  | wandbInit
  | printLen
  | mkSFTDatasets
  | mkMaskedSFTDatasets
  | raiseValueError
  | constructTrainer
  | trainerTrain
  | savePretrained
  | callModel
  | wandbLog
  deriving DecidableEq

/-- The straight-line trace of `train` (lines 52-93): the `wandb.init`
call is guarded by `torch.distributed.get_rank() == 0` (line 66), the
dataset-adapter branch either constructs the datasets and continues to
`Trainer(...)`, `trainer.train()` and `model.save_pretrained(...)`, or
raises and executes nothing further. -/
def trainEvents (rank : Nat) (trainer : String) : List Event :=
  [.updateConfig, .loadTokenizer, .setPadToken, .buildTrainingArgs, .loadModel,
   .loadDataset, .selectEvalShard, .selectTrainShard]
  ++ (if rank = 0 then [.wandbInit] else [])
  ++ [.printLen]
  ++ (if trainer = "unmasked" then
        [.mkSFTDatasets, .constructTrainer, .trainerTrain, .savePretrained]
      else if trainer = "masked" then
        [.mkMaskedSFTDatasets, .constructTrainer, .trainerTrain, .savePretrained]
      else [.raiseValueError])

/-- The trace of `SampleCallback.on_evaluate` (lines 38-49): `call_model`
runs unconditionally, `wandb.log` only under
`torch.distributed.get_rank() == 0`. -/
def onEvaluateEvents (rank : Nat) : List Event :=
  [.callModel] ++ (if rank = 0 then [.wandbLog] else [])

/-! ## Helper lemmas -/

theorem evalSize_le (n : Nat) : evalSize n ≤ n := by
  unfold evalSize; omega

theorem evalSize_eq_floor (n : Nat) : evalSize n = ⌊(0.02 : ℚ) * n⌋₊ := by
  have h : (0.02 : ℚ) * n = ((n * 2 : ℕ) : ℚ) / ((100 : ℕ) : ℚ) := by
    push_cast; ring
  rw [h, Nat.floor_div_nat, Nat.floor_natCast, evalSize]

theorem length_select (data : List α) (idxs : List Nat)
    (h : ∀ i ∈ idxs, i < data.length) : (select data idxs).length = idxs.length := by
  induction idxs with
  | nil => rfl
  | cons i rest ih =>
      have hi : i < data.length := h i (List.mem_cons_self i rest)
      simp only [select, List.filterMap_cons, List.getElem?_eq_getElem hi]
      have := ih fun j hj => h j (List.mem_cons_of_mem i hj)
      simp only [select] at this
      simp [this]

theorem length_splitEval (data : List α) :
    (splitEval data).length = evalSize data.length := by
  rw [splitEval, length_select, evalIndices, List.length_range]
  intro i hi
  rw [evalIndices, List.mem_range] at hi
  exact lt_of_lt_of_le hi (evalSize_le _)

theorem length_splitTrain (data : List α) :
    (splitTrain data).length = data.length - evalSize data.length := by
  rw [splitTrain, length_select, trainIndices, List.length_map, List.length_range]
  intro i hi
  rw [trainIndices, List.mem_map] at hi
  obtain ⟨j, hj, rfl⟩ := hi
  rw [List.mem_range] at hj
  have := evalSize_le data.length
  omega

/-! ## C1 and C5: the dataset split -/

/-- C1: for a dataset of size `N`, the split produces an eval shard of size
`⌊0.02 × N⌋` and a train shard of all remaining examples, of size
`N - ⌊0.02 × N⌋`. -/
theorem split_sizes (data : List α) :
    (splitEval data).length = ⌊(0.02 : ℚ) * data.length⌋₊ ∧
    (splitTrain data).length = data.length - ⌊(0.02 : ℚ) * data.length⌋₊ := by
  rw [← evalSize_eq_floor]
  exact ⟨length_splitEval data, length_splitTrain data⟩

/-- C5: the eval and train shards are index-disjoint and their sizes sum
to the original dataset size. -/
theorem split_disjoint_and_sum (data : List α) :
    (splitEval data).length + (splitTrain data).length = data.length ∧
    List.Disjoint (evalIndices data.length) (trainIndices data.length) := by
  constructor
  · rw [length_splitEval, length_splitTrain]
    have := evalSize_le data.length
    omega
  · intro i hi hi'
    rw [evalIndices, List.mem_range] at hi
    rw [trainIndices, List.mem_map] at hi'
    obtain ⟨j, _, rfl⟩ := hi'
    omega

/-! ## C2: trainer dispatch validation -/

/-- C2: any `trainer` value other than `"unmasked"` or `"masked"` raises a
`ValueError` (with the script's message) and the `Trainer` object is never
constructed, while the two recognised values select `SFTDataset` and
`MaskedSFTDataset` respectively without raising. -/
theorem trainer_dispatch (t : String) (h1 : t ≠ "unmasked") (h2 : t ≠ "masked") :
    selectAdapter t = .error (t ++ " is unsupported train type!") ∧
    (∀ rank, Event.constructTrainer ∉ trainEvents rank t) ∧
    selectAdapter "unmasked" = .ok .SFTDataset ∧
    selectAdapter "masked" = .ok .MaskedSFTDataset := by
  refine ⟨by simp [selectAdapter, h1, h2], ?_, by simp [selectAdapter], by simp [selectAdapter]⟩
  intro rank
  by_cases hr : rank = 0 <;> simp [trainEvents, h1, h2, hr]

/-- Witness for `trainer_dispatch` at the concrete value `"sft"`. -/
theorem trainer_dispatch_witness :
    ("sft" : String) ≠ "unmasked" ∧ ("sft" : String) ≠ "masked" ∧
    (selectAdapter "sft" = .error ("sft" ++ " is unsupported train type!") ∧
     (∀ rank, Event.constructTrainer ∉ trainEvents rank "sft") ∧
     selectAdapter "unmasked" = .ok .SFTDataset ∧
     selectAdapter "masked" = .ok .MaskedSFTDataset) :=
  ⟨by decide, by decide, trainer_dispatch "sft" (by decide) (by decide)⟩

/-! ## C6: the `train_args` mapping passed to `TrainingArguments` -/

theorem dictGet_dictSet_self (d : List (String × String)) (k v : String) :
    dictGet (dictSet d k v) k = some v := by
  induction d with
  | nil => simp [dictSet, dictGet, List.find?]
  | cons p rest ih =>
      by_cases hp : p.1 = k
      · simp [dictSet, hp, dictGet, List.find?]
      · simp [dictSet, hp, dictGet, List.find?] at ih ⊢
        exact ih

theorem dictGet_dictSet_other (d : List (String × String)) (k v k' : String)
    (h : k' ≠ k) : dictGet (dictSet d k v) k' = dictGet d k' := by
  have hk : ¬ (k = k') := fun he => h he.symm
  induction d with
  | nil => simp [dictSet, dictGet, List.find?, hk]
  | cons p rest ih =>
      obtain ⟨a, b⟩ := p
      by_cases hp : a = k
      · subst hp
        simp [dictSet, dictGet, List.find?, hk]
      · by_cases hp' : a = k'
        · simp [dictSet, hp, dictGet, List.find?, hp', h]
        · simp [dictSet, hp, dictGet, List.find?, hp'] at ih ⊢
          exact ih

/-- C6 fails on the code: with an empty YAML `train_args` and
`--ds_config_path ds_config.json`, the mapping passed to
`TrainingArguments` contains a `deepspeed` key that the YAML `train_args`
does not, because `__main__` line 105 mutates `config["train_args"]`
before `train` runs. -/
theorem train_args_not_verbatim :
    ¬ ∀ k, dictGet (mainTrainArgs [] "ds_config.json") k = dictGet [] k := fun h => by
  have hd := h "deepspeed"
  simp [mainTrainArgs, dictSet, dictGet, List.find?] at hd

/-- C6 amended: `TrainingArguments` receives the YAML `train_args` with
exactly one modification made by `__main__`: the key `"deepspeed"` is set
to the `--ds_config_path` CLI value; every other key is forwarded
unchanged. -/
theorem train_args_forwarding (yaml : List (String × String)) (ds : String)
    (k : String) (hk : k ≠ "deepspeed") :
    dictGet (mainTrainArgs yaml ds) k = dictGet yaml k ∧
    dictGet (mainTrainArgs yaml ds) "deepspeed" = some ds :=
  ⟨dictGet_dictSet_other yaml "deepspeed" ds k hk,
   dictGet_dictSet_self yaml "deepspeed" ds⟩

/-- Witness for `train_args_forwarding` at a concrete configuration. -/
theorem train_args_forwarding_witness :
    ("output_dir" : String) ≠ "deepspeed" ∧
    (dictGet (mainTrainArgs [("output_dir", "ckpt")] "ds.json") "output_dir" =
        dictGet [("output_dir", "ckpt")] "output_dir" ∧
     dictGet (mainTrainArgs [("output_dir", "ckpt")] "ds.json") "deepspeed" =
        some "ds.json") :=
  ⟨by decide, train_args_forwarding [("output_dir", "ckpt")] "ds.json" "output_dir" (by decide)⟩

/-! ## C7: experiment tracking is gated on rank 0 -/

/-- C7: `wandb.init` appears in the `train` trace exactly when the
distributed rank is `0`, and `wandb.log` appears in the `on_evaluate`
trace exactly when the rank is `0`; on every nonzero rank neither call
executes. -/
theorem wandb_rank_gated (rank : Nat) (trainer : String) :
    (Event.wandbInit ∈ trainEvents rank trainer ↔ rank = 0) ∧
    (Event.wandbLog ∈ onEvaluateEvents rank ↔ rank = 0) := by
  by_cases hr : rank = 0 <;>
    by_cases h1 : trainer = "unmasked" <;>
      by_cases h2 : trainer = "masked" <;>
        simp [trainEvents, onEvaluateEvents, hr, h1, h2]

/-! ## C3: flip-pad-flip produces a left-padded batch -/

theorem length_le_maxLen (batch : List (List Nat)) (l : List Nat) (hl : l ∈ batch) :
    l.length ≤ maxLen batch := by
  induction batch with
  | nil => cases hl
  | cons r rest ih =>
      rcases List.mem_cons.mp hl with h | h
      · subst h; exact le_max_left _ _
      · exact le_trans (ih h) (le_max_right _ _)

theorem maxLen_map_reverse (batch : List (List Nat)) :
    maxLen (batch.map List.reverse) = maxLen batch := by
  induction batch with
  | nil => rfl
  | cons r rest ih => simp [maxLen] at ih ⊢; rw [ih]

theorem length_flipPadFlip (batch : List (List Nat)) (pad : Nat) :
    (flipPadFlip batch pad).length = batch.length := by
  simp [flipPadFlip, padSequence]

/-- C3: the flip-pad-flip step left-pads the batch: the `i`-th output row
is the `i`-th prompt preceded by exactly enough copies of the pad token id
to reach the longest prompt's length, and every output row has that
length. -/
theorem flip_pad_flip_left_pads (batch : List (List Nat)) (pad : Nat) (i : Nat) :
    (flipPadFlip batch pad)[i]? =
      (batch[i]?).map (fun p => List.replicate (maxLen batch - p.length) pad ++ p) ∧
    ∀ r ∈ flipPadFlip batch pad, r.length = maxLen batch := by
  constructor
  · simp only [flipPadFlip, padSequence, List.getElem?_map]
    rcases h : batch[i]? with _ | p
    · rfl
    · simp [maxLen_map_reverse, List.reverse_append]
  · intro r hr
    simp only [flipPadFlip, padSequence, List.map_map, List.mem_map,
      Function.comp_apply] at hr
    obtain ⟨q, hq, rfl⟩ := hr
    have hle : q.reverse.length ≤ maxLen (batch.map List.reverse) :=
      length_le_maxLen _ _ (List.mem_map_of_mem List.reverse hq)
    simp [maxLen_map_reverse] at hle ⊢
    omega

/-! ## C4: the data collator stacks fixed-length examples -/

/-- C4: on a batch whose input-id, attention-mask and label sequences all
have length `L`, the collator returns the three stacked tensors, each of
shape (batch size, `L`), whose `i`-th row is the corresponding component
of example `i`. -/
theorem data_collator_stacks (data : List (List Nat × List Nat × List Int)) (L : Nat)
    (h : ∀ f ∈ data, f.1.length = L ∧ f.2.1.length = L ∧ f.2.2.length = L) :
    ((data_collator data).input_ids.length = data.length ∧
     (data_collator data).attention_mask.length = data.length ∧
     (data_collator data).labels.length = data.length) ∧
    ((∀ r ∈ (data_collator data).input_ids, r.length = L) ∧
     (∀ r ∈ (data_collator data).attention_mask, r.length = L) ∧
     (∀ r ∈ (data_collator data).labels, r.length = L)) ∧
    (∀ i : Nat, ((data_collator data).input_ids)[i]? =
              (data[i]?).map (fun f : List Nat × List Nat × List Int => f.1) ∧
          ((data_collator data).attention_mask)[i]? =
              (data[i]?).map (fun f : List Nat × List Nat × List Int => f.2.1) ∧
          ((data_collator data).labels)[i]? =
              (data[i]?).map (fun f : List Nat × List Nat × List Int => f.2.2)) := by
  refine ⟨⟨?_, ?_, ?_⟩, ⟨?_, ?_, ?_⟩, ?_⟩ <;>
    simp only [data_collator, List.length_map, List.getElem?_map]
  · intro r hr
    obtain ⟨f, hf, rfl⟩ := List.mem_map.mp hr
    exact (h f hf).1
  · intro r hr
    obtain ⟨f, hf, rfl⟩ := List.mem_map.mp hr
    exact (h f hf).2.1
  · intro r hr
    obtain ⟨f, hf, rfl⟩ := List.mem_map.mp hr
    exact (h f hf).2.2
  · intro i
    exact ⟨by trivial, by trivial, by trivial⟩

/-- Witness for `data_collator_stacks` on `exampleBatch`. -/
theorem data_collator_stacks_witness :
    (∀ f ∈ exampleBatch, f.1.length = 1 ∧ f.2.1.length = 1 ∧ f.2.2.length = 1) ∧
    (((data_collator exampleBatch).input_ids.length = exampleBatch.length ∧
      (data_collator exampleBatch).attention_mask.length = exampleBatch.length ∧
      (data_collator exampleBatch).labels.length = exampleBatch.length) ∧
     ((∀ r ∈ (data_collator exampleBatch).input_ids, r.length = 1) ∧
      (∀ r ∈ (data_collator exampleBatch).attention_mask, r.length = 1) ∧
      (∀ r ∈ (data_collator exampleBatch).labels, r.length = 1)) ∧
     (∀ i : Nat, ((data_collator exampleBatch).input_ids)[i]? =
              (exampleBatch[i]?).map (fun f : List Nat × List Nat × List Int => f.1) ∧
           ((data_collator exampleBatch).attention_mask)[i]? =
              (exampleBatch[i]?).map (fun f : List Nat × List Nat × List Int => f.2.1) ∧
           ((data_collator exampleBatch).labels)[i]? =
              (exampleBatch[i]?).map (fun f : List Nat × List Nat × List Int => f.2.2))) :=
  ⟨by decide, data_collator_stacks exampleBatch 1 (by decide)⟩

/-! ## C8: the model is saved only after the training loop returns

An exception anywhere in `train` aborts the rest of the body, so the set
of effects an execution performs is a prefix `(trainEvents rank
trainer).take k` of the straight-line trace.  The claim is prefix
closure: any prefix containing the `save_pretrained` event also contains
the `trainer.train()` event, at an earlier position. -/

theorem indexOf_lt_of_mem_take [DecidableEq α] :
    ∀ (l : List α) (k : Nat) (a : α), a ∈ l.take k → l.indexOf a < k := by
  intro l
  induction l with
  | nil => intro k a ha; simp at ha
  | cons x xs ih =>
      intro k a ha
      cases k with
      | zero => simp at ha
      | succ k =>
          rw [List.take_succ_cons] at ha
          rcases List.mem_cons.mp ha with h | h
          · subst h
            rw [List.indexOf_cons_self]
            exact Nat.succ_pos _
          · by_cases hx : x = a
            · subst hx
              rw [List.indexOf_cons_self]
              exact Nat.succ_pos _
            · rw [List.indexOf_cons_ne _ hx]
              exact Nat.succ_lt_succ (ih k a h)

theorem mem_take_of_indexOf_lt [DecidableEq α] :
    ∀ (l : List α) (k : Nat) (a : α), a ∈ l → l.indexOf a < k → a ∈ l.take k := by
  intro l
  induction l with
  | nil => intro k a ha; simp at ha
  | cons x xs ih =>
      intro k a ha hlt
      by_cases hx : x = a
      · subst hx
        cases k with
        | zero => rw [List.indexOf_cons_self] at hlt; exact absurd hlt (by omega)
        | succ k => rw [List.take_succ_cons]; exact List.mem_cons_self _ _
      · rw [List.indexOf_cons_ne _ hx] at hlt
        cases k with
        | zero => exact absurd hlt (by omega)
        | succ k =>
            rw [List.take_succ_cons]
            rcases List.mem_cons.mp ha with h | h
            · exact absurd h.symm hx
            · exact List.mem_cons_of_mem _ (ih k a h (Nat.lt_of_succ_lt_succ hlt))

theorem consecutive_mem_take (l : List Event) (k : Nat)
    (hidx : l.indexOf Event.trainerTrain + 1 = l.indexOf Event.savePretrained)
    (hmm : Event.trainerTrain ∈ l)
    (hk : l.indexOf Event.savePretrained < k) :
    Event.trainerTrain ∈ l.take k ∧
    l.indexOf Event.trainerTrain < l.indexOf Event.savePretrained :=
  ⟨mem_take_of_indexOf_lt l k _ hmm (by omega), by omega⟩

/-- C8: in every (possibly exception-truncated) execution of `train`, if
`model.save_pretrained` has executed then `trainer.train()` has executed
before it: the training-loop event precedes the save event in the trace,
and every executed prefix containing the save contains the training
loop. -/
theorem save_only_after_training (rank : Nat) (trainer : String) (k : Nat)
    (h : Event.savePretrained ∈ (trainEvents rank trainer).take k) :
    Event.trainerTrain ∈ (trainEvents rank trainer).take k ∧
    (trainEvents rank trainer).indexOf Event.trainerTrain <
      (trainEvents rank trainer).indexOf Event.savePretrained := by
  have hmem : Event.savePretrained ∈ trainEvents rank trainer :=
    List.mem_of_mem_take h
  have hk := indexOf_lt_of_mem_take _ _ _ h
  by_cases h1 : trainer = "unmasked"
  · subst h1
    by_cases hr : rank = 0
    · subst hr
      exact consecutive_mem_take _ _ (by decide) (by decide) hk
    · have ht : trainEvents rank "unmasked" =
          [.updateConfig, .loadTokenizer, .setPadToken, .buildTrainingArgs, .loadModel,
           .loadDataset, .selectEvalShard, .selectTrainShard, .printLen,
           .mkSFTDatasets, .constructTrainer, .trainerTrain, .savePretrained] := by
        simp [trainEvents, hr]
      rw [ht] at hk ⊢
      exact consecutive_mem_take _ _ (by decide) (by decide) hk
  · by_cases h2 : trainer = "masked"
    · subst h2
      by_cases hr : rank = 0
      · subst hr
        exact consecutive_mem_take _ _ (by decide) (by decide) hk
      · have ht : trainEvents rank "masked" =
            [.updateConfig, .loadTokenizer, .setPadToken, .buildTrainingArgs, .loadModel,
             .loadDataset, .selectEvalShard, .selectTrainShard, .printLen,
             .mkMaskedSFTDatasets, .constructTrainer, .trainerTrain, .savePretrained] := by
          simp [trainEvents, hr]
        rw [ht] at hk ⊢
        exact consecutive_mem_take _ _ (by decide) (by decide) hk
    · exfalso
      by_cases hr : rank = 0 <;> simp [trainEvents, h1, h2, hr] at hmem

/-- Witness for `save_only_after_training`: a completed rank-0 run with
`trainer = "unmasked"` (all 14 steps executed). -/
theorem save_only_after_training_witness :
    Event.savePretrained ∈ (trainEvents 0 "unmasked").take 14 ∧
    (Event.trainerTrain ∈ (trainEvents 0 "unmasked").take 14 ∧
     (trainEvents 0 "unmasked").indexOf Event.trainerTrain <
       (trainEvents 0 "unmasked").indexOf Event.savePretrained) :=
  ⟨by decide, save_only_after_training 0 "unmasked" 14 (by decide)⟩

/-! ## C9: `call_model` batching -/

theorem le_numBatches_mul (n bs : Nat) (hbs : 0 < bs) : n ≤ numBatches n bs * bs := by
  have h1 := Nat.div_add_mod (n + bs - 1) bs
  have h2 : (n + bs - 1) % bs < bs := Nat.mod_lt _ hbs
  unfold numBatches
  rw [mul_comm]
  generalize hq : bs * ((n + bs - 1) / bs) = t at h1
  omega

theorem numBatches_le (n bs m : Nat) (hbs : 0 < bs) (hm : n ≤ m * bs) :
    numBatches n bs ≤ m := by
  unfold numBatches
  rw [Nat.div_le_iff_le_mul_add_pred hbs, mul_comm bs m]
  generalize hA : m * bs = A at hm
  omega

theorem numBatches_eq_ceil (n bs : Nat) (hbs : 0 < bs) :
    numBatches n bs = ⌈(n : ℚ) / bs⌉₊ := by
  have hbsq : (0 : ℚ) < bs := by exact_mod_cast hbs
  apply le_antisymm
  · apply numBatches_le n bs _ hbs
    have h := Nat.le_ceil ((n : ℚ) / bs)
    rw [div_le_iff₀ hbsq] at h
    exact_mod_cast h
  · rw [Nat.ceil_le, div_le_iff₀ hbsq]
    exact_mod_cast le_numBatches_mul n bs hbs

theorem flatten_chunks (bs : Nat) :
    ∀ (nb : Nat) (l : List α), l.length ≤ nb * bs →
      ((List.range nb).map fun i => (l.drop (i * bs)).take bs).flatten = l := by
  intro nb
  induction nb with
  | zero =>
      intro l hl
      simp at hl
      simp [hl]
  | succ nb ih =>
      intro l hl
      rw [List.range_succ_eq_map]
      simp only [List.map_cons, List.map_map, List.flatten_cons, Nat.zero_mul,
        List.drop_zero]
      have htail : ((List.range nb).map ((fun i => (l.drop (i * bs)).take bs) ∘ Nat.succ)) =
          (List.range nb).map fun i => ((l.drop bs).drop (i * bs)).take bs := by
        apply List.map_congr_left
        intro i _
        simp only [Function.comp_apply]
        have h : Nat.succ i * bs = bs + i * bs := by
          rw [Nat.succ_mul]; exact Nat.add_comm _ _
        rw [h, ← List.drop_drop]
      rw [htail, ih (l.drop bs) ?_, List.take_append_drop]
      rw [List.length_drop]
      rw [Nat.succ_mul] at hl
      exact Nat.sub_le_iff_le_add.mpr hl

theorem full_batch (n bs i : Nat) (hbs : 0 < bs) (h : i + 1 < numBatches n bs) :
    i * bs + bs ≤ n := by
  have h1 : numBatches n bs * bs ≤ n + bs - 1 := Nat.div_mul_le_self _ _
  have h2 : (i + 2) * bs ≤ numBatches n bs * bs :=
    Nat.mul_le_mul_right bs (by omega)
  have h3 : (i + 2) * bs = i * bs + 2 * bs := by ring
  rw [h3] at h2
  generalize hA : i * bs = A at h2 ⊢
  generalize hB : numBatches n bs * bs = B at h1 h2
  omega

theorem length_flipPadFlip_gen (gen : List (List Nat) → List String)
    (hgen : ∀ b, (gen b).length = b.length) (b : List (List Nat)) (pad : Nat) :
    (gen (flipPadFlip b pad)).length = b.length := by
  rw [hgen, length_flipPadFlip]

theorem call_model_length (tokenize : String → List Nat)
    (gen : List (List Nat) → List String) (pad : Nat) (prompts : List String)
    (bs : Nat) (hbs : 0 < bs) (hgen : ∀ b, (gen b).length = b.length) :
    (call_model tokenize gen pad prompts bs).length = prompts.length := by
  unfold call_model
  rw [List.length_flatten, List.map_map]
  have hmap : ((promptBatches (prompts.map fun p => tokenize p) bs).map
        (List.length ∘ fun b => gen (flipPadFlip b pad))) =
      (promptBatches (prompts.map fun p => tokenize p) bs).map List.length := by
    apply List.map_congr_left
    intro b _
    simp only [Function.comp_apply]
    exact length_flipPadFlip_gen gen hgen b pad
  rw [hmap, ← List.length_flatten]
  rw [promptBatches, flatten_chunks bs _ _ ?_, List.length_map]
  rw [List.length_map]
  exact le_numBatches_mul _ bs hbs

/-- C9: `call_model` cuts the tokenized prompts, in order, into
`⌈n / batch_size⌉` consecutive batches (flattening them restores the
prompt sequence), every batch has size at most `batch_size`, every batch
but possibly the last has size exactly `batch_size`, and the answer list
has exactly one decoded answer per prompt, in prompt order. -/
theorem call_model_batches (tokenize : String → List Nat)
    (gen : List (List Nat) → List String) (pad : Nat) (prompts : List String)
    (bs : Nat) (hbs : 0 < bs) (hne : prompts ≠ [])
    (hgen : ∀ b, (gen b).length = b.length) :
    (promptBatches (prompts.map tokenize) bs).length = ⌈(prompts.length : ℚ) / bs⌉₊ ∧
    (promptBatches (prompts.map tokenize) bs).flatten = prompts.map tokenize ∧
    (∀ b ∈ promptBatches (prompts.map tokenize) bs, b.length ≤ bs) ∧
    (∀ i b, i + 1 < (promptBatches (prompts.map tokenize) bs).length →
        (promptBatches (prompts.map tokenize) bs)[i]? = some b → b.length = bs) ∧
    (call_model tokenize gen pad prompts bs).length = prompts.length := by
  refine ⟨?_, ?_, ?_, ?_, call_model_length tokenize gen pad prompts bs hbs hgen⟩
  · rw [promptBatches, List.length_map, List.length_range, List.length_map]
    exact numBatches_eq_ceil prompts.length bs hbs
  · rw [promptBatches]
    apply flatten_chunks
    rw [List.length_map]
    exact le_numBatches_mul _ bs hbs
  · intro b hb
    rw [promptBatches, List.mem_map] at hb
    obtain ⟨i, _, rfl⟩ := hb
    rw [List.length_take]
    exact min_le_left _ _
  · intro i b hi hb
    rw [promptBatches, List.length_map, List.length_range] at hi
    rw [promptBatches, List.getElem?_map, List.getElem?_range (by omega),
      Option.map_some'] at hb
    have hfull := full_batch (prompts.map tokenize).length bs i hbs hi
    cases hb
    rw [List.length_take, List.length_drop]
    generalize hA : i * bs = A at hfull ⊢
    omega

/-! ## C10: `on_evaluate` samples at most 16 prompt/response pairs -/

/-- C10: the logged table has `min 16 N` rows for an eval dataset with `N`
prompts (so at most 16), its prompt column is exactly the first
`min 16 N` prompts of the eval dataset, and its response column is the
generation output for those prompts, pairing the `i`-th prompt with the
`i`-th response. -/
theorem on_evaluate_sampling (tokenize : String → List Nat)
    (gen : List (List Nat) → List String) (pad : Nat) (dsPrompts : List String)
    (hgen : ∀ b, (gen b).length = b.length) :
    (onEvaluatePairs tokenize gen pad dsPrompts).length = min 16 dsPrompts.length ∧
    (onEvaluatePairs tokenize gen pad dsPrompts).length ≤ 16 ∧
    (onEvaluatePairs tokenize gen pad dsPrompts).map Prod.fst = dsPrompts.take 16 ∧
    (onEvaluatePairs tokenize gen pad dsPrompts).map Prod.snd =
      call_model tokenize gen pad (dsPrompts.take 16) 16 := by
  have hlen : (call_model tokenize gen pad (dsPrompts.take 16) 16).length =
      (dsPrompts.take 16).length :=
    call_model_length tokenize gen pad _ 16 (by norm_num) hgen
  have hzlen : (onEvaluatePairs tokenize gen pad dsPrompts).length =
      (dsPrompts.take 16).length := by
    rw [onEvaluatePairs, List.length_zip, hlen, min_self]
  refine ⟨?_, ?_, ?_, ?_⟩
  · rw [hzlen, List.length_take]
  · rw [hzlen, List.length_take]
    exact min_le_left _ _
  · exact List.map_fst_zip _ _ (le_of_eq hlen.symm)
  · exact List.map_snd_zip _ _ (le_of_eq hlen)

/-- Witness for `call_model_batches` at a concrete three-prompt list with
batch size 2. -/
theorem call_model_batches_witness :
    (0 < 2 ∧ prompts0 ≠ [] ∧ ∀ b, (gen0 b).length = b.length) ∧
    ((promptBatches (prompts0.map tok0) 2).length = ⌈(prompts0.length : ℚ) / 2⌉₊ ∧
     (promptBatches (prompts0.map tok0) 2).flatten = prompts0.map tok0 ∧
     (∀ b ∈ promptBatches (prompts0.map tok0) 2, b.length ≤ 2) ∧
     (∀ i b, i + 1 < (promptBatches (prompts0.map tok0) 2).length →
         (promptBatches (prompts0.map tok0) 2)[i]? = some b → b.length = 2) ∧
     (call_model tok0 gen0 0 prompts0 2).length = prompts0.length) :=
  ⟨⟨by decide, by decide, fun b => by simp [gen0]⟩,
   call_model_batches tok0 gen0 0 prompts0 2 (by decide) (by decide)
     (fun b => by simp [gen0])⟩

/-- Witness for `on_evaluate_sampling` at a concrete two-prompt eval
dataset. -/
theorem on_evaluate_sampling_witness :
    (∀ b, (gen0 b).length = b.length) ∧
    ((onEvaluatePairs tok0 gen0 0 dsPrompts0).length = min 16 dsPrompts0.length ∧
     (onEvaluatePairs tok0 gen0 0 dsPrompts0).length ≤ 16 ∧
     (onEvaluatePairs tok0 gen0 0 dsPrompts0).map Prod.fst = dsPrompts0.take 16 ∧
     (onEvaluatePairs tok0 gen0 0 dsPrompts0).map Prod.snd =
       call_model tok0 gen0 0 (dsPrompts0.take 16) 16) :=
  ⟨fun b => by simp [gen0],
   on_evaluate_sampling tok0 gen0 0 dsPrompts0 (fun b => by simp [gen0])⟩

end FinetuneBase
